import Mathlib

set_option maxRecDepth 1000000
set_option linter.unusedVariables false

/-!
# CryptoNoise KSampler — verification of the signing stage

Shallow embedding of `src/cryptonoise_ksampler.py` (class `CryptoNoise_KSampler`):
identity derivation (`_derive_crypto_identity`), noise synthesis, the shuffle
engine (`_shuffle_latent`, `_shuffle_pixels`, `_shuffle_blocks`), the blend and
the surrounding control flow of `sample` (lines 197-316, minus logging and the
external `common_ksampler` call).

Modelling conventions:
* Python `str` values used as secret keys are sequences of Unicode code points
  (`List Nat`), since `str.encode` is fallible on lone surrogates.
* Machine 32-bit integers are `Nat` with explicit `% 2^32`.
* Tensors are total functions `Nat → Nat → Nat → Nat → ℚ` over (B,C,H,W)
  indices; float arithmetic is modelled by exact rational arithmetic.
* Exceptions are `Except Unit`.
-/

namespace CryptoNoise

instance {ε α : Type} [DecidableEq ε] [DecidableEq α] : DecidableEq (Except ε α) := fun a b =>
  match a, b with
  | .error e1, .error e2 =>
    if h : e1 = e2 then isTrue (by rw [h]) else isFalse (fun hc => h (by cases hc; rfl))
  | .error _, .ok _ => isFalse (fun hc => Except.noConfusion hc)
  | .ok _, .error _ => isFalse (fun hc => Except.noConfusion hc)
  | .ok a1, .ok a2 =>
    if h : a1 = a2 then isTrue (by rw [h]) else isFalse (fun hc => h (by cases hc; rfl))

/-- A latent tensor, indexed (batch, channel, row, column), values in ℚ. -/
abbrev Tensor := Nat → Nat → Nat → Nat → ℚ

/-! ## UTF-8 encoding (Python `str.encode("utf-8")`) -/

/-- UTF-8 encoding of a single code point.  CPython raises `UnicodeEncodeError`
on lone surrogates (U+D800..U+DFFF); code points are below 0x110000 in any
Python `str`. -/
def encodeUtf8Char (c : Nat) : Except Unit (List Nat) :=
  if c < 0x80 then .ok [c]
  else if c < 0x800 then .ok [0xc0 + c / 64, 0x80 + c % 64]
  else if 0xd800 ≤ c ∧ c ≤ 0xdfff then .error ()
  else if c < 0x10000 then .ok [0xe0 + c / 4096, 0x80 + c / 64 % 64, 0x80 + c % 64]
  else if c < 0x110000 then
    .ok [0xf0 + c / 262144, 0x80 + c / 4096 % 64, 0x80 + c / 64 % 64, 0x80 + c % 64]
  else .error ()

/-- `key.encode("utf-8")` on a Python string given as its code points. -/
def encodeUtf8 : List Nat → Except Unit (List Nat)
  | [] => .ok []
  | c :: rest =>
    match encodeUtf8Char c, encodeUtf8 rest with
    | .ok bs, .ok bs2 => .ok (bs ++ bs2)
    | _, _ => .error ()

/-! ## SHA-256 (`hashlib.sha256`), over byte lists, words as `Nat % 2^32` -/

def rotr32 (x n : Nat) : Nat := ((x >>> n) ||| (x <<< (32 - n))) % 4294967296

def bigSigma0 (x : Nat) : Nat := rotr32 x 2 ^^^ rotr32 x 13 ^^^ rotr32 x 22

def bigSigma1 (x : Nat) : Nat := rotr32 x 6 ^^^ rotr32 x 11 ^^^ rotr32 x 25

def smallSigma0 (x : Nat) : Nat := rotr32 x 7 ^^^ rotr32 x 18 ^^^ (x >>> 3)

def smallSigma1 (x : Nat) : Nat := rotr32 x 17 ^^^ rotr32 x 19 ^^^ (x >>> 10)

def shaCh (x y z : Nat) : Nat := (x &&& y) ^^^ ((x ^^^ 0xffffffff) &&& z)

def shaMaj (x y z : Nat) : Nat := (x &&& y) ^^^ (x &&& z) ^^^ (y &&& z)

def shaK : List Nat :=
  [0x428a2f98, 0x71374491, 0xb5c0fbcf, 0xe9b5dba5, 0x3956c25b, 0x59f111f1] ++
    [0x923f82a4, 0xab1c5ed5, 0xd807aa98, 0x12835b01, 0x243185be, 0x550c7dc3] ++
    [0x72be5d74, 0x80deb1fe, 0x9bdc06a7, 0xc19bf174, 0xe49b69c1, 0xefbe4786] ++
    [0x0fc19dc6, 0x240ca1cc, 0x2de92c6f, 0x4a7484aa, 0x5cb0a9dc, 0x76f988da] ++
    [0x983e5152, 0xa831c66d, 0xb00327c8, 0xbf597fc7, 0xc6e00bf3, 0xd5a79147] ++
    [0x06ca6351, 0x14292967, 0x27b70a85, 0x2e1b2138, 0x4d2c6dfc, 0x53380d13] ++
    [0x650a7354, 0x766a0abb, 0x81c2c92e, 0x92722c85, 0xa2bfe8a1, 0xa81a664b] ++
    [0xc24b8b70, 0xc76c51a3, 0xd192e819, 0xd6990624, 0xf40e3585, 0x106aa070] ++
    [0x19a4c116, 0x1e376c08, 0x2748774c, 0x34b0bcb5, 0x391c0cb3, 0x4ed8aa4a] ++
    [0x5b9cca4f, 0x682e6ff3, 0x748f82ee, 0x78a5636f, 0x84c87814, 0x8cc70208] ++
    [0x90befffa, 0xa4506ceb, 0xbef9a3f7, 0xc67178f2]

def shaH0 : List Nat :=
  [0x6a09e667, 0xbb67ae85, 0x3c6ef372] ++ [0xa54ff53a, 0x510e527f, 0x9b05688c] ++
    [0x1f83d9ab, 0x5be0cd19]

/-- Big-endian bytes (length `k`) of `n`. -/
def natToBeBytes : Nat → Nat → List Nat
  | 0, _ => []
  | k + 1, n => natToBeBytes k (n / 256) ++ [n % 256]

/-- SHA-256 padding: append 0x80, zeros, and the 64-bit big-endian bit length. -/
def sha256Pad (msg : List Nat) : List Nat :=
  let L := msg.length
  let z := (64 - (L + 9) % 64) % 64
  msg ++ [0x80] ++ List.replicate z 0 ++ natToBeBytes 8 ((8 * L) % 2 ^ 64)

/-- Big-endian 32-bit words from a byte list. -/
def bytesToWords : List Nat → List Nat
  | b0 :: b1 :: b2 :: b3 :: rest => (((b0 * 256 + b1) * 256 + b2) * 256 + b3) :: bytesToWords rest
  | _ => []

/-- Extend the 16-word message schedule by `count` further words. -/
def shaSchedule (ws : List Nat) : Nat → List Nat
  | 0 => ws
  | c + 1 =>
    let n := ws.length
    let w := (smallSigma1 (ws.getD (n - 2) 0) + ws.getD (n - 7) 0 +
              smallSigma0 (ws.getD (n - 15) 0) + ws.getD (n - 16) 0) % 2 ^ 32
    shaSchedule (ws ++ [w]) c

/-- One SHA-256 compression round on state `[a,b,c,d,e,f,g,h]`. -/
def shaRound (st : List Nat) (kw : Nat × Nat) : List Nat :=
  let a := st.getD 0 0
  let b := st.getD 1 0
  let c := st.getD 2 0
  let d := st.getD 3 0
  let e := st.getD 4 0
  let f := st.getD 5 0
  let g := st.getD 6 0
  let h := st.getD 7 0
  let t1 := (h + bigSigma1 e + shaCh e f g + kw.1 + kw.2) % 2 ^ 32
  let t2 := (bigSigma0 a + shaMaj a b c) % 2 ^ 32
  [(t1 + t2) % 2 ^ 32, a, b, c, (d + t1) % 2 ^ 32, e, f, g]

/-- Compress one 64-byte block into the hash state. -/
def shaCompress (h : List Nat) (block : List Nat) : List Nat :=
  let ws := shaSchedule (bytesToWords block) 48
  let st := (shaK.zip ws).foldl shaRound h
  (h.zip st).map (fun p => (p.1 + p.2) % 2 ^ 32)

/-- Process the padded message 64 bytes at a time; the fuel is the block count. -/
def shaBlocks (h : List Nat) (bytes : List Nat) : Nat → List Nat
  | 0 => h
  | k + 1 => shaBlocks (shaCompress h (bytes.take 64)) (bytes.drop 64) k

/-- SHA-256 digest (32 bytes) of a byte list. -/
def sha256 (msg : List Nat) : List Nat :=
  let padded := sha256Pad msg
  ((shaBlocks shaH0 padded (padded.length / 64)).map (natToBeBytes 4)).flatten

def hexChar (n : Nat) : Char := Nat.digitChar n

/-- Lowercase hex encoding of a byte list (Python `bytes.hex()`). -/
def hexStr (bs : List Nat) : String :=
  String.mk ((bs.map (fun b => [hexChar (b / 16), hexChar (b % 16)])).flatten)

/-- Big-endian unsigned integer from bytes (`int.from_bytes(_, 'big')`). -/
def beBytesToNat (bs : List Nat) : Nat := bs.foldl (fun acc b => acc * 256 + b) 0

/-! ## Mersenne Twister (`np.random.RandomState`)

`numpy`'s legacy `RandomState(seed)` with an integer seed below 2^32 seeds the
MT19937 state with `mt19937_seed` (randomkit `rk_seed`), and `permutation(n)`
runs a descending Fisher-Yates using `random_interval` (masked rejection
sampling on 32-bit draws). -/

/-- Generator state: the 624-word key and the read position. -/
structure MTGen where
  key : List Nat
  pos : Nat

/-- `mt19937_seed`: `key[0] = seed`, then
`key[i] = (1812433253 * (key[i-1] xor (key[i-1] >> 30)) + i) mod 2^32`. -/
def mtInitAux : Nat → Nat → Nat → List Nat
  | 0, _, _ => []
  | n + 1, i, s => s :: mtInitAux n (i + 1) ((1812433253 * (s ^^^ (s >>> 30)) + i + 1) % 2 ^ 32)

def mtInit (seed : Nat) : MTGen := ⟨mtInitAux 624 0 (seed % 2 ^ 32), 624⟩

/-- One in-place step of the MT19937 twist at index `i` (reads the current
array, so indices already rewritten this pass are seen updated, as in the C
loop). -/
def mtTwistStep (mt : List Nat) (i : Nat) : List Nat :=
  let y := (mt.getD i 0 &&& 0x80000000) ||| (mt.getD ((i + 1) % 624) 0 &&& 0x7fffffff)
  mt.set i (mt.getD ((i + 397) % 624) 0 ^^^ (y >>> 1) ^^^ (if y &&& 1 = 1 then 0x9908b0df else 0))

def mtTwist (mt : List Nat) : List Nat := (List.range 624).foldl mtTwistStep mt

/-- `rk_random`: twist when exhausted, then emit the next tempered word. -/
def nextU32 (g : MTGen) : Nat × MTGen :=
  let key := if 624 ≤ g.pos then mtTwist g.key else g.key
  let pos := if 624 ≤ g.pos then 0 else g.pos
  let y := key.getD pos 0
  let y := y ^^^ (y >>> 11)
  let y := y ^^^ ((y <<< 7) &&& 0x9d2c5680)
  let y := y ^^^ ((y <<< 15) &&& 0xefc60000)
  let y := y ^^^ (y >>> 18)
  (y, ⟨key, pos + 1⟩)

/-- Smallest mask `2^k - 1` covering `mx` (`random_interval`'s mask). -/
def intervalMask (mx : Nat) : Nat :=
  let m := mx ||| (mx >>> 1)
  let m := m ||| (m >>> 2)
  let m := m ||| (m >>> 4)
  let m := m ||| (m >>> 8)
  let m := m ||| (m >>> 16)
  m ||| (m >>> 32)

/-- Rejection loop of `random_interval`: draw, mask, retry while above `mx`.
The source loop has no bound; it is modelled with fuel (the fallback 0 is never
reached in any run this development evaluates). -/
def randomIntervalAux (mx mask : Nat) : Nat → MTGen → Nat × MTGen
  | 0, g => (0, g)
  | fuel + 1, g =>
    let vg := nextU32 g
    if vg.1 &&& mask ≤ mx then (vg.1 &&& mask, vg.2) else randomIntervalAux mx mask fuel vg.2

/-- `random_interval(bitgen, mx)`: uniform draw in `[0, mx]`; consumes nothing
when `mx = 0`. -/
def randomInterval (g : MTGen) (mx : Nat) : Nat × MTGen :=
  if mx = 0 then (0, g) else randomIntervalAux mx (intervalMask mx) 4096 g

/-- Swap entries `i` and `j` of a list (`x[i], x[j] = x[j], x[i]`). -/
def listSwap (arr : List Nat) (i j : Nat) : List Nat :=
  (arr.set i (arr.getD j 0)).set j (arr.getD i 0)

/-- Descending Fisher-Yates: processes indices `k, k-1, ..., 1`, drawing
`j ∈ [0, i]` for index `i`. -/
def fisherYatesAux : Nat → List Nat → MTGen → List Nat
  | 0, arr, _ => arr
  | i + 1, arr, g =>
    let jg := randomInterval g (i + 1)
    fisherYatesAux i (listSwap arr (i + 1) jg.1) jg.2

/-- `RandomState(seed).permutation(n)` for an in-range seed.  The legacy
`RandomState` constructor raises `ValueError` for an integer seed at or above
2^32; that check belongs to the call sites (`shuffle_pixels` per channel seed,
`shuffle_blocks` for the shared seed), which refuse out-of-range seeds before
this function is consulted. -/
def npPermutation (seed n : Nat) : List Nat :=
  fisherYatesAux (n - 1) (List.range n) (mtInit seed)

/-! ## Python `int(...)` parsing and `split("_")[1]` -/

/-- Characters stripped by `int(str)` (ASCII part of `str.isspace()`). -/
def pyWhitespace (c : Char) : Bool :=
  decide (c.toNat = 32 ∨ (9 ≤ c.toNat ∧ c.toNat ≤ 13) ∨ (28 ≤ c.toNat ∧ c.toNat ≤ 31))

def isPyDigit (c : Char) : Bool := decide (48 ≤ c.toNat ∧ c.toNat ≤ 57)

/-- Split a character list on underscores. -/
def splitUnderscore : List Char → List (List Char)
  | [] => [[]]
  | c :: rest =>
    match splitUnderscore rest with
    | [] => [[c]]
    | g :: gs => if c = '_' then [] :: g :: gs else (c :: g) :: gs

/-- Digit run with optional single underscores between digits
(`digit+ ( _ digit+ )*`), as accepted by Python `int`. -/
def pyDigitsOk (cs : List Char) : Bool :=
  (splitUnderscore cs).all (fun g => !g.isEmpty && g.all isPyDigit)

def digitsToNat (cs : List Char) : Nat :=
  (cs.filter (fun c => c ≠ '_')).foldl (fun acc c => acc * 10 + (c.toNat - 48)) 0

def pyParseMagnitude (cs : List Char) : Option Nat :=
  if pyDigitsOk cs then some (digitsToNat cs) else none

def pyParseSigned : List Char → Option Int
  | '+' :: rest => (pyParseMagnitude rest).map Int.ofNat
  | '-' :: rest => (pyParseMagnitude rest).map (fun n => -(n : Int))
  | cs => (pyParseMagnitude cs).map Int.ofNat

/-- Python `int(s)` for ASCII strings: strip whitespace, optional sign,
digits with underscore grouping; `none` models `ValueError`. -/
def pyParseInt (s : String) : Option Int :=
  pyParseSigned (((s.data.dropWhile pyWhitespace).reverse.dropWhile pyWhitespace).reverse)

/-- `shuffle_mode.split("_")[1]`: `none` models `IndexError`. -/
def pySplitIdx1 (mode : String) : Option String :=
  ((splitUnderscore mode.data).map String.mk).get? 1

/-! ## Identity derivation (`_derive_crypto_identity`) -/

/-- The identity record returned by `_derive_crypto_identity`.  The wall-clock
reading `time.time()` is modelled by an explicit `now` argument threaded to the
field `timestamp`. -/
structure CryptoIdentity where
  key_hash : String
  seed : Nat
  artist_key_length : Nat
  shape : Nat × Nat × Nat × Nat
  timestamp : ℚ
  deriving DecidableEq

def derive_crypto_identity (artist_key : List Nat) (shape : Nat × Nat × Nat × Nat) (now : ℚ) :
    Except Unit CryptoIdentity :=
  match encodeUtf8 artist_key with
  | .error e => .error e
  | .ok bytes =>
    let hash_digest := sha256 bytes
    .ok { key_hash := hexStr hash_digest
          seed := beBytesToNat (hash_digest.take 8) % 2 ^ 32
          artist_key_length := artist_key.length
          shape := shape
          timestamp := now }

/-- `f"CN-{identity['key_hash'][:16]}"` (line 220). -/
def cn_signature (key_hash : String) : String := "CN-" ++ String.mk (key_hash.data.take 16)

/-! ## Noise synthesis

`torch.randn(shape, generator=crypto_generator, ...)` with a generator freshly
seeded from `identity["seed"]` is external library code.  Modelled from the
spec: noise synthesis is a deterministic function of the seed and the target
shape ("same seed + shape ⇒ bit-identical tensor"); the concrete values below
are an arbitrary fixed stand-in, no claim depends on them. -/
def torch_randn (seed : Nat) (B C H W : Nat) : Tensor :=
  fun b c y x =>
    mkRat ((seed + 2654435761 * (((b * B + c) * C + y) * H + x * W + x)) % 4294967296) 4294967296

/-! ## Shuffle engine -/

/-- `latent[b, c].flatten()`: row-major flattening of one 2-D slice. -/
def flattenSlice (latent : Tensor) (b c W : Nat) : Nat → ℚ := fun k => latent b c (k / W) (k % W)

/-- `flat[perm]`: output index `i` receives `flat[perm[i]]`. -/
def gatherFlat (flat : Nat → ℚ) (perm : List Nat) : Nat → ℚ := fun i => flat (perm.getD i 0)

/-- `.reshape(H, W)` of a flat row-major sequence. -/
def reshapeTo2d (flat : Nat → ℚ) (W : Nat) : Nat → Nat → ℚ := fun y x => flat (y * W + x)

/-- The per-slice effect of the `_shuffle_pixels` loop body: each (batch,
channel) slice is flattened, gathered along its own
`RandomState(seed + b*C + c).permutation(H*W)` and reshaped.  The Python loop
writes each slice of the clone exactly once and reads only from `latent`, so
it is a pointwise definition over slices. -/
def pixelShuffleGather (latent : Tensor) (seed : Nat) (B C H W : Nat) : Tensor :=
  fun b c y x =>
    if b < B ∧ c < C ∧ y < H ∧ x < W then
      reshapeTo2d
        (gatherFlat (flattenSlice latent b c W) (npPermutation (seed + b * C + c) (H * W))) W y x
    else latent b c y x

/-- `_shuffle_pixels`: constructs `np.random.RandomState(channel_seed)` inside
the (b, c) loop; the constructor raises `ValueError` for any integer seed at
or above 2^32, so the function raises (discarding all partial work) unless
every channel seed `seed + b*C + c` with `b < B`, `c < C` is in range, and
otherwise gathers each slice with its own permutation. -/
def shuffle_pixels (latent : Tensor) (seed : Nat) (B C H W : Nat) : Except Unit Tensor :=
  if ∀ b < B, ∀ c < C, seed + b * C + c < 2 ^ 32 then
    .ok (pixelShuffleGather latent seed B C H W)
  else .error ()

/-- One block copy of the `_shuffle_blocks` inner loop:
`shuffled_channel[dst_y:dst_y+S, dst_x:dst_x+S] = channel[src_y:src_y+S, src_x:src_x+S]`
with `src` derived from `idx` and `dst` from `dst = block_perm[idx]`. -/
def blockWrite (ch : Nat → Nat → ℚ) (S bw idx dst : Nat) (acc : Nat → Nat → ℚ) :
    Nat → Nat → ℚ :=
  fun y x =>
    if dst / bw * S ≤ y ∧ y < dst / bw * S + S ∧ dst % bw * S ≤ x ∧ x < dst % bw * S + S then
      ch (idx / bw * S + (y - dst / bw * S)) (idx % bw * S + (x - dst % bw * S))
    else acc y x

/-- The `for idx in range(total_blocks)` loop, started from
`torch.zeros_like(channel)`. -/
def shuffledChannel (ch : Nat → Nat → ℚ) (perm : List Nat) (S bw total : Nat) :
    Nat → Nat → ℚ :=
  (List.range total).foldl (fun acc idx => blockWrite ch S bw idx (perm.getD idx 0) acc)
    (fun _ _ => 0)

/-- The non-degenerate arm of `_shuffle_blocks` (lines 444-478), reached for a
positive block size with at least one complete block per dimension and an
in-range generator seed: one shared permutation of the `(H//S)*(W//S)` block
indices, blocks scattered per slice inside the top-left truncated region, the
clone left untouched elsewhere.  The dispatch around this arm (degenerate
fallback, `RandomState` construction) lives in `shuffle_blocks`.  The outer
(b, c) loop writes disjoint slices reading only from `latent`, so it is a
pointwise definition over slices. -/
def shuffleBlocksPos (latent : Tensor) (seed : Nat) (B C H W S : Nat) : Tensor :=
  let blocks_h := H / S
  let blocks_w := W / S
  let total_blocks := blocks_h * blocks_w
  let block_perm := npPermutation seed total_blocks
  fun b c y x =>
    if b < B ∧ c < C ∧ y < blocks_h * S ∧ x < blocks_w * S then
      shuffledChannel (fun y2 x2 => latent b c y2 x2) block_perm S blocks_w total_blocks y x
    else latent b c y x

/-- `_shuffle_blocks` over the `int`-typed block size produced by the mode
parser.  `block_size = 0` raises `ZeroDivisionError` at `H // block_size`
before anything else.  The `blocks_h == 0 or blocks_w == 0` fallback to
`_shuffle_pixels` (which may itself raise on a channel-seed overflow) runs
before `np.random.RandomState(identity["seed"])` is constructed; that
constructor raises `ValueError` for a seed at or above 2^32.  For a negative
block size every `[src_y:src_y+S]` slice is empty, so each block copy is a
no-op and the region assignment stores the untouched zeros of
`shuffled_channel` over the whole (clamped) slice; there `blocks_h == 0`
happens exactly when `H = 0` (the pixel fallback). -/
def shuffle_blocks (latent : Tensor) (seed : Nat) (B C H W : Nat) (block_size : Int) :
    Except Unit Tensor :=
  if block_size = 0 then .error ()
  else if 0 < block_size then
    if H / block_size.toNat = 0 ∨ W / block_size.toNat = 0 then
      shuffle_pixels latent seed B C H W
    else if 2 ^ 32 ≤ seed then .error ()
    else .ok (shuffleBlocksPos latent seed B C H W block_size.toNat)
  else if H = 0 ∨ W = 0 then shuffle_pixels latent seed B C H W
  else if 2 ^ 32 ≤ seed then .error ()
  else .ok (fun b c y x => if b < B ∧ c < C ∧ y < H ∧ x < W then 0 else latent b c y x)

/-- `_shuffle_latent`: dispatch on `shuffle_mode`; any parse failure of
`int(shuffle_mode.split("_")[1])` is an exception. -/
def shuffle_latent (latent : Tensor) (identity : CryptoIdentity) (shuffle_mode : String)
    (B C H W : Nat) : Except Unit Tensor :=
  if shuffle_mode = "pixel" then shuffle_pixels latent identity.seed B C H W
  else
    match pySplitIdx1 shuffle_mode with
    | none => .error ()
    | some fld =>
      match pyParseInt fld with
      | none => .error ()
      | some block_size => shuffle_blocks latent identity.seed B C H W block_size

/-! ## Blend, provenance, and the signing stage of `sample` -/

/-- Lines 252-255: linear blend for `crypto_blend < 1.0`, otherwise the noise
tensor is passed through with no arithmetic applied. -/
def blend_latent (samples crypto_noise : Tensor) (crypto_blend : ℚ) : Tensor :=
  if crypto_blend < 1 then
    fun b c y x =>
      samples b c y x * (1 - crypto_blend) + crypto_noise b c y x * crypto_blend
  else crypto_noise

/-- `_build_verification_info`'s returned record. -/
structure VerificationInfo where
  version : String
  system : String
  timestamp : ℚ
  key_hash : String
  signature : String
  note : String
  blend_strength : ℚ
  shuffle_mode : String
  latent_shape : Nat × Nat × Nat × Nat
  crypto_seed : Nat
  gen_seed : Nat
  steps : Nat
  cfg : ℚ
  sampler : String
  scheduler : String
  method : String
  expected_result : String
  proof_type : String
  collision_probability : String
  legal_notice : String
  deriving DecidableEq

def build_verification_info (identity : CryptoIdentity) (blend : ℚ) (shuffle_mode : String)
    (latent_shape : Nat × Nat × Nat × Nat) (seed steps : Nat) (cfg : ℚ)
    (sampler scheduler : String) : VerificationInfo :=
  { version := "1.0.0"
    system := "CryptoNoise_KSampler"
    timestamp := identity.timestamp
    key_hash := identity.key_hash
    signature := cn_signature identity.key_hash
    note := "Artist key hash (not the key itself - key remains sealed)"
    blend_strength := blend
    shuffle_mode := shuffle_mode
    latent_shape := latent_shape
    crypto_seed := identity.seed
    gen_seed := seed
    steps := steps
    cfg := cfg
    sampler := sampler
    scheduler := scheduler
    method := "Regenerate with disclosed artist_key, compare SSIM"
    expected_result := "SSIM \u2248 1.0 if artist_key matches"
    proof_type := "Mathematical (SHA-256 based)"
    collision_probability := "~10^-77 (effectively impossible)"
    legal_notice := "This signature is intrinsic to the generation process and cannot be removed without regenerating the image. Artist key must be disclosed for verification in legal disputes." }

/-- What the signing stage hands onward: the latent fed to the sampler, the
returned signature string, and the verification payload (`none` models the
empty dict serialized as "\x7b\x7d"). -/
structure SampleResult where
  latent : Tensor
  signature : String
  verification : Option VerificationInfo

/-- The `try:` block of `sample` (lines 223-276): noise synthesis, shuffle,
blend, verification-info build.  Any exception inside surfaces as `.error`. -/
def signing_try (identity : CryptoIdentity) (samples : Tensor) (B C H W : Nat)
    (crypto_blend : ℚ) (shuffle_mode : String) (gen_seed steps : Nat) (cfg : ℚ)
    (sampler_name scheduler : String) : Except Unit (Tensor × VerificationInfo) :=
  let crypto_base := torch_randn identity.seed B C H W
  match shuffle_latent crypto_base identity shuffle_mode B C H W with
  | .error e => .error e
  | .ok crypto_noise =>
    let blended_samples := blend_latent samples crypto_noise crypto_blend
    .ok (blended_samples,
      build_verification_info identity crypto_blend shuffle_mode (B, C, H, W) gen_seed steps cfg
        sampler_name scheduler)

/-- The signing stage of `sample` (lines 197-286): threshold gate on
`crypto_blend`, identity derivation (outside the `try:`), the guarded signing
attempt with fallback to the unsigned passthrough, and the returned
(latent, signature, verification) triple.  The sampler call that consumes the
result is external. -/
def sample (artist_key : List Nat) (samples : Tensor) (B C H W : Nat) (crypto_blend : ℚ)
    (shuffle_mode : String) (gen_seed steps : Nat) (cfg : ℚ)
    (sampler_name scheduler : String) (now : ℚ) : Except Unit SampleResult :=
  -- `crypto_blend > 0.01` (line 211); the threshold literal 0.01 is the
  -- rational 1/100, written `mkRat 1 100`
  if mkRat 1 100 < crypto_blend then
    match derive_crypto_identity artist_key (B, C, H, W) now with
    | .error e => .error e
    | .ok identity =>
      let signature := cn_signature identity.key_hash
      match signing_try identity samples B C H W crypto_blend shuffle_mode gen_seed steps cfg
          sampler_name scheduler with
      | .ok r => .ok ⟨r.1, signature, some r.2⟩
      | .error _ => .ok ⟨samples, "error", none⟩
  else .ok ⟨samples, "unsigned", none⟩

/-- The multiset of values of one (batch, channel) slice over `[0,H) × [0,W)`. -/
def sliceMultiset (t : Tensor) (b c H W : Nat) : Multiset ℚ :=
  ∑ y ∈ Finset.range H, ∑ x ∈ Finset.range W, ({t b c y x} : Multiset ℚ)

/-- The multiset of values of the S×S block with row-major block index `d`
(block row `d / bw`, block column `d % bw`). -/
def blockMultiset (t : Tensor) (b c S bw d : Nat) : Multiset ℚ :=
  ∑ dy ∈ Finset.range S, ∑ dx ∈ Finset.range S,
    ({t b c (d / bw * S + dy) (d % bw * S + dx)} : Multiset ℚ)

/-! ## Concrete inputs used by witnesses and counterexamples -/

/-- The code points of the Python string "alice". -/
def aliceKey : List Nat := [97, 108, 105, 99, 101]

/-- A test tensor whose value encodes its (row, column) position. -/
def demoTensor : Tensor := fun _ _ y x => ((y * 24 + x : Nat) : ℚ)

/-- The all-zero latent tensor. -/
def zeroTensor : Tensor := fun _ _ _ _ => 0

/-! ## Permutation facts: `npPermutation seed n` is a permutation of `0..n-1` -/

theorem randomIntervalAux_le (mx mask : Nat) :
    ∀ (fuel : Nat) (g : MTGen), (randomIntervalAux mx mask fuel g).1 ≤ mx := by
  intro fuel
  induction fuel with
  | zero => intro g; exact Nat.zero_le mx
  | succ n ih =>
    intro g
    simp only [randomIntervalAux]
    split
    next h => simpa using h
    next h => exact ih _

theorem randomInterval_le (g : MTGen) (mx : Nat) : (randomInterval g mx).1 ≤ mx := by
  unfold randomInterval
  split
  · simp
  · exact randomIntervalAux_le mx (intervalMask mx) 4096 g

theorem listSwap_length (arr : List Nat) (i j : Nat) : (listSwap arr i j).length = arr.length := by
  simp [listSwap]

theorem listSwap_count (arr : List Nat) (i j x : Nat) (hi : i < arr.length)
    (hj : j < arr.length) : (listSwap arr i j).count x = arr.count x := by
  have hj2 : j < (arr.set i (arr.getD j 0)).length := by simpa using hj
  unfold listSwap
  rw [List.count_set _ _ _ _ hj2, List.count_set _ _ _ _ hi]
  simp only [List.getElem_set]
  simp only [List.getD_eq_getElem arr 0 hj, List.getD_eq_getElem arr 0 hi, ite_self]
  have hA : (if (arr[i] == x) = true then 1 else 0) ≤ arr.count x := by
    split
    next h => exact List.count_pos_iff.2 ((beq_iff_eq.1 h) ▸ List.getElem_mem hi)
    next _ => exact Nat.zero_le _
  omega

theorem listSwap_perm (arr : List Nat) (i j : Nat) (hi : i < arr.length)
    (hj : j < arr.length) : (listSwap arr i j).Perm arr :=
  List.perm_iff_count.2 fun x => listSwap_count arr i j x hi hj

theorem fisherYatesAux_perm : ∀ (k : Nat) (arr : List Nat) (g : MTGen), k < arr.length →
    (fisherYatesAux k arr g).Perm arr
  | 0, arr, _, _ => List.Perm.refl arr
  | k + 1, arr, g, h => by
    simp only [fisherYatesAux]
    have hj : (randomInterval g (k + 1)).1 ≤ k + 1 := randomInterval_le g (k + 1)
    have hlen : (listSwap arr (k + 1) (randomInterval g (k + 1)).1).length = arr.length :=
      listSwap_length arr (k + 1) (randomInterval g (k + 1)).1
    exact (fisherYatesAux_perm k _ _ (by omega)).trans
      (listSwap_perm arr (k + 1) (randomInterval g (k + 1)).1 h (by omega))

theorem npPermutation_perm (seed n : Nat) : (npPermutation seed n).Perm (List.range n) := by
  match n with
  | 0 => simp [npPermutation, fisherYatesAux]
  | m + 1 => exact fisherYatesAux_perm m (List.range (m + 1)) (mtInit seed) (by simp)

theorem npPermutation_length (seed n : Nat) : (npPermutation seed n).length = n := by
  simpa using (npPermutation_perm seed n).length_eq

theorem npPermutation_nodup (seed n : Nat) : (npPermutation seed n).Nodup :=
  (npPermutation_perm seed n).nodup_iff.2 (List.nodup_range n)

theorem npPermutation_mem (seed n d : Nat) : d ∈ npPermutation seed n ↔ d < n := by
  rw [(npPermutation_perm seed n).mem_iff, List.mem_range]

theorem npPermutation_getD_lt (seed n i : Nat) (h : i < n) :
    (npPermutation seed n).getD i 0 < n := by
  have hl : i < (npPermutation seed n).length := by rw [npPermutation_length]; exact h
  rw [List.getD_eq_getElem _ _ hl]
  exact (npPermutation_mem seed n _).1 (List.getElem_mem hl)

theorem npPermutation_getD_inj (seed n i j : Nat) (hi : i < n) (hj : j < n)
    (h : (npPermutation seed n).getD i 0 = (npPermutation seed n).getD j 0) : i = j := by
  have hli : i < (npPermutation seed n).length := by rw [npPermutation_length]; exact hi
  have hlj : j < (npPermutation seed n).length := by rw [npPermutation_length]; exact hj
  rw [List.getD_eq_getElem _ _ hli, List.getD_eq_getElem _ _ hlj] at h
  exact ((npPermutation_nodup seed n).getElem_inj_iff).1 h

/-- Anchor: the embedded MT19937 generator, seeding, rejection sampling and
descending Fisher-Yates reproduce numpy exactly:
`np.random.RandomState(0).permutation(10)` is `[2, 8, 4, 9, 1, 6, 7, 3, 0, 5]`. -/
theorem npPermutation_numpy_anchor :
    npPermutation 0 10 = [2, 8, 4, 9, 1, 6, 7, 3, 0, 5] := by decide

/-! ## Characterization of the block-scatter loop -/

/-- Two destination blocks covering a common position are the same block. -/
theorem dstBlock_unique (S bw d d2 y x : Nat)
    (h : d / bw * S ≤ y ∧ y < d / bw * S + S ∧ d % bw * S ≤ x ∧ x < d % bw * S + S)
    (h2 : d2 / bw * S ≤ y ∧ y < d2 / bw * S + S ∧ d2 % bw * S ≤ x ∧ x < d2 % bw * S + S) :
    d = d2 := by
  obtain ⟨a1, a2, a3, a4⟩ := h
  obtain ⟨b1, b2, b3, b4⟩ := h2
  have hS : 0 < S := by omega
  have ey1 : y / S = d / bw := Nat.div_eq_of_lt_le a1 (by rw [Nat.succ_mul]; omega)
  have ey2 : y / S = d2 / bw := Nat.div_eq_of_lt_le b1 (by rw [Nat.succ_mul]; omega)
  have ex1 : x / S = d % bw := Nat.div_eq_of_lt_le a3 (by rw [Nat.succ_mul]; omega)
  have ex2 : x / S = d2 % bw := Nat.div_eq_of_lt_le b3 (by rw [Nat.succ_mul]; omega)
  calc d = bw * (d / bw) + d % bw := (Nat.div_add_mod d bw).symm
    _ = bw * (d2 / bw) + d2 % bw := by rw [← ey1, ← ex1, ey2, ex2]
    _ = d2 := Nat.div_add_mod d2 bw

/-- A position written by no destination block of `L` keeps the accumulator
value through the scatter fold. -/
theorem foldl_blockWrite_notin (ch : Nat → Nat → ℚ) (S bw : Nat) (perm : List Nat)
    (y x : Nat) :
    ∀ (L : List Nat) (acc : Nat → Nat → ℚ),
      (∀ idx ∈ L, ¬(perm.getD idx 0 / bw * S ≤ y ∧ y < perm.getD idx 0 / bw * S + S ∧
        perm.getD idx 0 % bw * S ≤ x ∧ x < perm.getD idx 0 % bw * S + S)) →
      (L.foldl (fun acc idx => blockWrite ch S bw idx (perm.getD idx 0) acc) acc) y x = acc y x
  | [], _, _ => rfl
  | a :: L, acc, h => by
    rw [List.foldl_cons,
      foldl_blockWrite_notin ch S bw perm y x L _
        (fun idx hm => h idx (List.mem_cons_of_mem a hm))]
    simp only [blockWrite]
    rw [if_neg (h a (List.mem_cons_self a L))]

/-- A position inside the destination block of the unique writer `i ∈ L`
receives the source-block value of `i`. -/
theorem foldl_blockWrite_mem (ch : Nat → Nat → ℚ) (S bw : Nat) (perm : List Nat)
    (y x : Nat) :
    ∀ (L : List Nat) (acc : Nat → Nat → ℚ) (i : Nat), L.Nodup → i ∈ L →
      (perm.getD i 0 / bw * S ≤ y ∧ y < perm.getD i 0 / bw * S + S ∧
        perm.getD i 0 % bw * S ≤ x ∧ x < perm.getD i 0 % bw * S + S) →
      (∀ idx ∈ L, (perm.getD idx 0 / bw * S ≤ y ∧ y < perm.getD idx 0 / bw * S + S ∧
        perm.getD idx 0 % bw * S ≤ x ∧ x < perm.getD idx 0 % bw * S + S) → idx = i) →
      (L.foldl (fun acc idx => blockWrite ch S bw idx (perm.getD idx 0) acc) acc) y x =
        ch (i / bw * S + (y - perm.getD i 0 / bw * S)) (i % bw * S + (x - perm.getD i 0 % bw * S))
  | [], _, i, _, hmem, _, _ => absurd hmem (List.not_mem_nil i)
  | a :: L, acc, i, hnd, hmem, hcond, huniq => by
    rw [List.foldl_cons]
    by_cases hai : a = i
    · subst hai
      have hnotin : ∀ idx ∈ L, ¬(perm.getD idx 0 / bw * S ≤ y ∧
          y < perm.getD idx 0 / bw * S + S ∧ perm.getD idx 0 % bw * S ≤ x ∧
          x < perm.getD idx 0 % bw * S + S) := by
        intro idx hidx hc
        have : idx = a := huniq idx (List.mem_cons_of_mem a hidx) hc
        subst this
        exact (List.nodup_cons.1 hnd).1 hidx
      rw [foldl_blockWrite_notin ch S bw perm y x L _ hnotin]
      simp only [blockWrite]
      rw [if_pos hcond]
    · have hmem2 : i ∈ L := by
        rcases List.mem_cons.1 hmem with h | h
        · exact absurd h.symm hai
        · exact h
      exact foldl_blockWrite_mem ch S bw perm y x L _ i (List.nodup_cons.1 hnd).2 hmem2 hcond
        (fun idx hidx hc => huniq idx (List.mem_cons_of_mem a hidx) hc)

/-- The scatter loop of `_shuffle_blocks`: the value at offset (dy, dx) inside
destination block `perm[i]` is the source value at offset (dy, dx) inside
block `i`. -/
theorem shuffledChannel_char (ch : Nat → Nat → ℚ) (seed n S bw : Nat)
    (i dy dx : Nat) (hi : i < n) (hdy : dy < S) (hdx : dx < S) :
    shuffledChannel ch (npPermutation seed n) S bw n
      ((npPermutation seed n).getD i 0 / bw * S + dy)
      ((npPermutation seed n).getD i 0 % bw * S + dx) =
      ch (i / bw * S + dy) (i % bw * S + dx) := by
  have hcond : (npPermutation seed n).getD i 0 / bw * S ≤
      (npPermutation seed n).getD i 0 / bw * S + dy ∧
      (npPermutation seed n).getD i 0 / bw * S + dy <
        (npPermutation seed n).getD i 0 / bw * S + S ∧
      (npPermutation seed n).getD i 0 % bw * S ≤
        (npPermutation seed n).getD i 0 % bw * S + dx ∧
      (npPermutation seed n).getD i 0 % bw * S + dx <
        (npPermutation seed n).getD i 0 % bw * S + S := by omega
  have huniq : ∀ idx ∈ List.range n,
      ((npPermutation seed n).getD idx 0 / bw * S ≤
        (npPermutation seed n).getD i 0 / bw * S + dy ∧
      (npPermutation seed n).getD i 0 / bw * S + dy <
        (npPermutation seed n).getD idx 0 / bw * S + S ∧
      (npPermutation seed n).getD idx 0 % bw * S ≤
        (npPermutation seed n).getD i 0 % bw * S + dx ∧
      (npPermutation seed n).getD i 0 % bw * S + dx <
        (npPermutation seed n).getD idx 0 % bw * S + S) → idx = i := by
    intro idx hidx hc
    exact npPermutation_getD_inj seed n idx i (List.mem_range.1 hidx) hi
      (dstBlock_unique S bw _ _ _ _ hc hcond)
  have := foldl_blockWrite_mem ch S bw (npPermutation seed n)
    ((npPermutation seed n).getD i 0 / bw * S + dy)
    ((npPermutation seed n).getD i 0 % bw * S + dx)
    (List.range n) (fun _ _ => 0) i (List.nodup_range n) (List.mem_range.2 hi) hcond huniq
  simp only [shuffledChannel]
  rw [this, Nat.add_sub_cancel_left, Nat.add_sub_cancel_left]

/-! ## Pointwise characterization of `_shuffle_blocks` (positive block size) -/

/-- Inside the truncated region, offset (dy, dx) of destination block
`block_perm[i]` holds the source value from offset (dy, dx) of block `i` —
the loop scatters block `i` to block `block_perm[i]`, identically for every
(batch, channel) slice, with the single shared permutation. -/
theorem shuffleBlocksPos_char (latent : Tensor) (seed B C H W S : Nat) (b c : Nat)
    (hb : b < B) (hc : c < C) (hbh : 0 < H / S) (hbw : 0 < W / S)
    (i dy dx : Nat) (hi : i < H / S * (W / S)) (hdy : dy < S) (hdx : dx < S) :
    shuffleBlocksPos latent seed B C H W S b c
      ((npPermutation seed (H / S * (W / S))).getD i 0 / (W / S) * S + dy)
      ((npPermutation seed (H / S * (W / S))).getD i 0 % (W / S) * S + dx) =
      latent b c (i / (W / S) * S + dy) (i % (W / S) * S + dx) := by
  have hp : (npPermutation seed (H / S * (W / S))).getD i 0 < H / S * (W / S) :=
    npPermutation_getD_lt seed (H / S * (W / S)) i hi
  have hdiv : (npPermutation seed (H / S * (W / S))).getD i 0 / (W / S) < H / S :=
    Nat.div_lt_of_lt_mul (by rw [Nat.mul_comm (W / S) (H / S)]; exact hp)
  have hmod : (npPermutation seed (H / S * (W / S))).getD i 0 % (W / S) < W / S :=
    Nat.mod_lt _ hbw
  have hy : (npPermutation seed (H / S * (W / S))).getD i 0 / (W / S) * S + dy < H / S * S := by
    have h2 : ((npPermutation seed (H / S * (W / S))).getD i 0 / (W / S) + 1) * S ≤
        H / S * S := Nat.mul_le_mul_right S hdiv
    have h3 : ((npPermutation seed (H / S * (W / S))).getD i 0 / (W / S) + 1) * S =
        (npPermutation seed (H / S * (W / S))).getD i 0 / (W / S) * S + S := Nat.succ_mul _ _
    omega
  have hx : (npPermutation seed (H / S * (W / S))).getD i 0 % (W / S) * S + dx <
      W / S * S := by
    have h2 : ((npPermutation seed (H / S * (W / S))).getD i 0 % (W / S) + 1) * S ≤
        W / S * S := Nat.mul_le_mul_right S hmod
    have h3 : ((npPermutation seed (H / S * (W / S))).getD i 0 % (W / S) + 1) * S =
        (npPermutation seed (H / S * (W / S))).getD i 0 % (W / S) * S + S := Nat.succ_mul _ _
    omega
  simp only [shuffleBlocksPos]
  rw [if_pos ⟨hb, hc, hy, hx⟩]
  exact shuffledChannel_char (fun y2 x2 => latent b c y2 x2) seed (H / S * (W / S)) S (W / S)
    i dy dx hi hdy hdx

/-- Rows and columns outside the truncated block region are left unchanged. -/
theorem shuffleBlocksPos_remainder (latent : Tensor) (seed B C H W S : Nat)
    (b c y x : Nat) (hbh : 0 < H / S) (hbw : 0 < W / S)
    (hout : H / S * S ≤ y ∨ W / S * S ≤ x) :
    shuffleBlocksPos latent seed B C H W S b c y x = latent b c y x := by
  simp only [shuffleBlocksPos]
  rw [if_neg (by omega)]

/-! ## Multiset preservation machinery -/

/-- Reindex a sum over `range (m * S)` as a double sum over quotient and
remainder. -/
theorem sum_range_mul_eq {M : Type} [AddCommMonoid M] (f : Nat → M) (m S : Nat) :
    ∑ y ∈ Finset.range (m * S), f y =
      ∑ q ∈ Finset.range m, ∑ d ∈ Finset.range S, f (q * S + d) := by
  induction m with
  | zero => simp
  | succ k ih => rw [Nat.succ_mul, Finset.sum_range_add, ih, Finset.sum_range_succ]

/-- A slice of shape `(bh*S) × (bw*S)` decomposes into its `bh*bw` blocks. -/
theorem sliceMultiset_eq_sum_blocks (t : Tensor) (b c S bh bw : Nat) (hbw : 0 < bw) :
    sliceMultiset t b c (bh * S) (bw * S) =
      ∑ d ∈ Finset.range (bh * bw), blockMultiset t b c S bw d := by
  unfold sliceMultiset blockMultiset
  rw [sum_range_mul_eq _ bh S, sum_range_mul_eq _ bh bw]
  apply Finset.sum_congr rfl
  intro qy _
  have e1 : ∀ dy : Nat,
      (∑ x ∈ Finset.range (bw * S), ({t b c (qy * S + dy) x} : Multiset ℚ)) =
        ∑ qx ∈ Finset.range bw, ∑ dx ∈ Finset.range S,
          ({t b c (qy * S + dy) (qx * S + dx)} : Multiset ℚ) :=
    fun dy => sum_range_mul_eq _ bw S
  simp only [e1]
  rw [Finset.sum_comm]
  apply Finset.sum_congr rfl
  intro qx hqx
  have hqx2 : qx < bw := Finset.mem_range.1 hqx
  have e2 : qy * bw + qx = bw * qy + qx := by ring
  have ediv : (qy * bw + qx) / bw = qy := by
    rw [e2, Nat.mul_add_div hbw, Nat.div_eq_of_lt hqx2, Nat.add_zero]
  have emod : (qy * bw + qx) % bw = qx := by
    rw [e2, Nat.mul_add_mod, Nat.mod_eq_of_lt hqx2]
  rw [ediv, emod]

/-- Reindex a sum over `range n` along a list that is a permutation of
`range n`. -/
theorem sum_range_perm_getD {M : Type} [AddCommMonoid M] (l : List Nat) (n : Nat)
    (hl : l.Perm (List.range n)) (f : Nat → M) :
    ∑ d ∈ Finset.range n, f d = ∑ i ∈ Finset.range n, f (l.getD i 0) := by
  have hlen : l.length = n := by simpa using hl.length_eq
  have h1 : ∑ d ∈ Finset.range n, f d = ((List.range n).map f).sum := by
    rw [Finset.sum_eq_multiset_sum, Finset.range_val, ← Multiset.coe_range, Multiset.map_coe,
      Multiset.sum_coe]
  have h2 : ∑ i ∈ Finset.range n, f (l.getD i 0) =
      ((List.range n).map (fun i => f (l.getD i 0))).sum := by
    rw [Finset.sum_eq_multiset_sum, Finset.range_val, ← Multiset.coe_range, Multiset.map_coe,
      Multiset.sum_coe]
  have h3 : l.map f = (List.range n).map (fun i => f (l.getD i 0)) := by
    apply List.ext_getElem
    · simp [hlen]
    · intro k hk1 hk2
      simp only [List.getElem_map, List.getElem_range]
      rw [List.getD_eq_getElem l 0 (by simp only [List.length_map] at hk1; omega)]
  have h4 : ((List.range n).map f).sum = (l.map f).sum := ((hl.map f).sum_eq).symm
  rw [h1, h4, h3, h2]

/-- Each destination block of the shuffled slice carries exactly the values of
its source block. -/
theorem shuffleBlocksPos_blockMultiset (latent : Tensor) (seed B C bh bw S : Nat)
    (b c : Nat) (hb : b < B) (hc : c < C) (hS : 0 < S) (hbh : 0 < bh) (hbw : 0 < bw)
    (i : Nat) (hi : i < bh * bw) :
    blockMultiset (shuffleBlocksPos latent seed B C (bh * S) (bw * S) S) b c S bw
      ((npPermutation seed (bh * bw)).getD i 0) = blockMultiset latent b c S bw i := by
  have ebh : bh * S / S = bh := Nat.mul_div_cancel bh hS
  have ebw : bw * S / S = bw := Nat.mul_div_cancel bw hS
  unfold blockMultiset
  apply Finset.sum_congr rfl
  intro dy hdy
  apply Finset.sum_congr rfl
  intro dx hdx
  have hchar := shuffleBlocksPos_char latent seed B C (bh * S) (bw * S) S b c hb hc
    (by rw [ebh]; exact hbh) (by rw [ebw]; exact hbw) i dy dx
    (by rw [ebh, ebw]; exact hi) (Finset.mem_range.1 hdy) (Finset.mem_range.1 hdx)
  rw [ebh, ebw] at hchar
  rw [hchar]

/-- When the block size divides both spatial dimensions, the multiset of
values of every (batch, channel) slice is preserved by the block shuffle. -/
theorem shuffleBlocksPos_slice_multiset (latent : Tensor) (seed B C bh bw S : Nat)
    (hS : 0 < S) (hbh : 0 < bh) (hbw : 0 < bw) (b c : Nat) (hb : b < B) (hc : c < C) :
    sliceMultiset (shuffleBlocksPos latent seed B C (bh * S) (bw * S) S) b c (bh * S) (bw * S) =
      sliceMultiset latent b c (bh * S) (bw * S) := by
  rw [sliceMultiset_eq_sum_blocks _ b c S bh bw hbw, sliceMultiset_eq_sum_blocks _ b c S bh bw hbw]
  rw [sum_range_perm_getD (npPermutation seed (bh * bw)) (bh * bw)
    (npPermutation_perm seed (bh * bw))
    (blockMultiset (shuffleBlocksPos latent seed B C (bh * S) (bw * S) S) b c S bw)]
  apply Finset.sum_congr rfl
  intro i hi
  exact shuffleBlocksPos_blockMultiset latent seed B C bh bw S b c hb hc hS hbh hbw i
    (Finset.mem_range.1 hi)

/-- `shuffle_latent` reads nothing of the identity record but its seed. -/
theorem shuffle_latent_seed_only (latent : Tensor) (id1 id2 : CryptoIdentity)
    (h : id1.seed = id2.seed) (shuffle_mode : String) (B C H W : Nat) :
    shuffle_latent latent id1 shuffle_mode B C H W =
      shuffle_latent latent id2 shuffle_mode B C H W := by
  unfold shuffle_latent
  rw [h]

/-! ## Claim theorems -/

/-- C1: With the blend ratio above the activation threshold, two invocations
of the signing stage on the same key, input tensor, shape, mode and ratio
(differing only in their wall-clock readings, the sole per-invocation input)
produce bit-identical blended latent tensors, identical key_hash fingerprints,
and identical signature strings. -/
theorem c1_signing_determinism (artist_key : List Nat) (samples : Tensor) (B C H W : Nat)
    (crypto_blend : ℚ) (shuffle_mode : String) (gen_seed steps : Nat) (cfg : ℚ)
    (sampler_name scheduler : String) (t1 t2 : ℚ)
    (hr : mkRat 1 100 < crypto_blend) :
    ((sample artist_key samples B C H W crypto_blend shuffle_mode gen_seed steps cfg
        sampler_name scheduler t1).toOption.map (fun r => r.latent) =
      (sample artist_key samples B C H W crypto_blend shuffle_mode gen_seed steps cfg
        sampler_name scheduler t2).toOption.map (fun r => r.latent)) ∧
    ((sample artist_key samples B C H W crypto_blend shuffle_mode gen_seed steps cfg
        sampler_name scheduler t1).toOption.map (fun r => r.signature) =
      (sample artist_key samples B C H W crypto_blend shuffle_mode gen_seed steps cfg
        sampler_name scheduler t2).toOption.map (fun r => r.signature)) ∧
    ((sample artist_key samples B C H W crypto_blend shuffle_mode gen_seed steps cfg
        sampler_name scheduler t1).toOption.map
          (fun r => r.verification.map (fun v => v.key_hash)) =
      (sample artist_key samples B C H W crypto_blend shuffle_mode gen_seed steps cfg
        sampler_name scheduler t2).toOption.map
          (fun r => r.verification.map (fun v => v.key_hash))) := by
  unfold sample derive_crypto_identity
  simp only [if_pos hr]
  cases henc : encodeUtf8 artist_key with
  | error e => simp [Except.toOption]
  | ok bytes =>
    simp only [signing_try]
    rw [shuffle_latent_seed_only
      (torch_randn (beBytesToNat ((sha256 bytes).take 8) % 2 ^ 32) B C H W)
      ⟨hexStr (sha256 bytes), beBytesToNat ((sha256 bytes).take 8) % 2 ^ 32,
        artist_key.length, (B, C, H, W), t1⟩
      ⟨hexStr (sha256 bytes), beBytesToNat ((sha256 bytes).take 8) % 2 ^ 32,
        artist_key.length, (B, C, H, W), t2⟩ rfl shuffle_mode B C H W]
    cases hsh : shuffle_latent
        (torch_randn (beBytesToNat ((sha256 bytes).take 8) % 2 ^ 32) B C H W)
        ⟨hexStr (sha256 bytes), beBytesToNat ((sha256 bytes).take 8) % 2 ^ 32,
          artist_key.length, (B, C, H, W), t2⟩ shuffle_mode B C H W with
    | error e => simp [Except.toOption]
    | ok crypto_noise => simp [Except.toOption, build_verification_info]

/-- C1 witness: concrete invocation pair differing in clock readings. -/
theorem c1_signing_determinism_witness :
    mkRat 1 100 < mkRat 1 2 ∧
    ((sample aliceKey demoTensor 1 1 2 2 (mkRat 1 2) "block_8" 0 20 8 "euler" "normal"
        0).toOption.map (fun r => r.signature) =
      (sample aliceKey demoTensor 1 1 2 2 (mkRat 1 2) "block_8" 0 20 8 "euler" "normal"
        1).toOption.map (fun r => r.signature)) :=
  ⟨by decide,
    (c1_signing_determinism aliceKey demoTensor 1 1 2 2 (mkRat 1 2) "block_8" 0 20 8 "euler"
      "normal" 0 1 (by decide)).2.1⟩

/-- C2: identity derivation hashes the UTF-8 bytes of the key with SHA-256;
key_hash is the hex digest, the seed is the big-endian value of the first 8
digest bytes mod 2^32, the signature is "CN-" plus the first 16 hex
characters; for key "alice" the seed is exactly 2131624111 =
0x2bd806c97f0e00af mod 2^32. -/
theorem c2_identity_derivation :
    (∀ (key : List Nat) (shape : Nat × Nat × Nat × Nat) (now : ℚ) (bytes : List Nat),
      key ≠ [] → encodeUtf8 key = .ok bytes →
      derive_crypto_identity key shape now =
        .ok ⟨hexStr (sha256 bytes), beBytesToNat ((sha256 bytes).take 8) % 2 ^ 32,
          key.length, shape, now⟩) ∧
    derive_crypto_identity aliceKey (1, 4, 64, 64) 0 =
      .ok ⟨"2bd806c97f0e00af1a1fc3328fa763a9269723c8db8fac4f93af71db186d6e90", 2131624111, 5,
        (1, 4, 64, 64), 0⟩ ∧
    cn_signature "2bd806c97f0e00af1a1fc3328fa763a9269723c8db8fac4f93af71db186d6e90" =
      "CN-2bd806c97f0e00af" := by
  refine ⟨fun key shape now bytes hne henc => ?_, by decide, by decide⟩
  unfold derive_crypto_identity
  rw [henc]

/-- C2 witness: the general clause applied to the key "alice". -/
theorem c2_identity_derivation_witness :
    aliceKey ≠ [] ∧ encodeUtf8 aliceKey = .ok [97, 108, 105, 99, 101] ∧
    derive_crypto_identity aliceKey (1, 4, 64, 64) 0 =
      .ok ⟨hexStr (sha256 [97, 108, 105, 99, 101]),
        beBytesToNat ((sha256 [97, 108, 105, 99, 101]).take 8) % 2 ^ 32, aliceKey.length,
        (1, 4, 64, 64), 0⟩ :=
  ⟨by decide, by decide,
    c2_identity_derivation.1 aliceKey (1, 4, 64, 64) 0 [97, 108, 105, 99, 101] (by decide)
      (by decide)⟩

/-- C3: above the threshold the blended output is exactly
`original*(1-r) + shuffled*r` element-wise, and at `r = 1` the code takes the
arithmetic-free branch whose output is the shuffled noise tensor itself. -/
theorem c3_blend_linearity (samples crypto_noise : Tensor) (r : ℚ)
    (h1 : mkRat 1 100 < r) (h2 : r ≤ 1) :
    (∀ b c y x, blend_latent samples crypto_noise r b c y x =
      samples b c y x * (1 - r) + crypto_noise b c y x * r) ∧
    (r = 1 → blend_latent samples crypto_noise r = crypto_noise) := by
  constructor
  · intro b c y x
    unfold blend_latent
    by_cases hlt : r < 1
    · rw [if_pos hlt]
    · have he : r = 1 := le_antisymm h2 (not_lt.1 hlt)
      subst he
      rw [if_neg hlt]
      simp
  · intro he
    subst he
    unfold blend_latent
    rw [if_neg (lt_irrefl 1)]

/-- C3 witness: the linear form at ratio 1/2 on concrete tensors. -/
theorem c3_blend_linearity_witness :
    mkRat 1 100 < mkRat 1 2 ∧ mkRat 1 2 ≤ 1 ∧
    blend_latent demoTensor zeroTensor (mkRat 1 2) 0 0 0 1 =
      demoTensor 0 0 0 1 * (1 - mkRat 1 2) + zeroTensor 0 0 0 1 * mkRat 1 2 :=
  ⟨by decide, by decide,
    (c3_blend_linearity demoTensor zeroTensor (mkRat 1 2) (by decide) (by decide)).1 0 0 0 1⟩

/-- C4 (amended): once identity derivation has succeeded, the signing stage
never raises — any exception inside the noise-synthesis/shuffle/blend block is
caught and downgraded to passing the original latent through with signature
"error"; identity derivation itself, however, runs before the handler. -/
theorem c4_shuffle_failure_caught (artist_key : List Nat) (samples : Tensor) (B C H W : Nat)
    (crypto_blend : ℚ) (shuffle_mode : String) (gen_seed steps : Nat) (cfg : ℚ)
    (sampler_name scheduler : String) (now : ℚ) (bytes : List Nat)
    (henc : encodeUtf8 artist_key = .ok bytes) (hr : mkRat 1 100 < crypto_blend) :
    ((sample artist_key samples B C H W crypto_blend shuffle_mode gen_seed steps cfg
        sampler_name scheduler now).isOk = true) ∧
    (∀ identity, derive_crypto_identity artist_key (B, C, H, W) now = .ok identity →
      signing_try identity samples B C H W crypto_blend shuffle_mode gen_seed steps cfg
        sampler_name scheduler = .error () →
      sample artist_key samples B C H W crypto_blend shuffle_mode gen_seed steps cfg
        sampler_name scheduler now = .ok ⟨samples, "error", none⟩) := by
  have hd : derive_crypto_identity artist_key (B, C, H, W) now =
      .ok ⟨hexStr (sha256 bytes), beBytesToNat ((sha256 bytes).take 8) % 2 ^ 32,
        artist_key.length, (B, C, H, W), now⟩ := by
    unfold derive_crypto_identity
    rw [henc]
  constructor
  · unfold sample
    rw [if_pos hr, hd]
    cases htry : signing_try ⟨hexStr (sha256 bytes), beBytesToNat ((sha256 bytes).take 8) % 2 ^ 32,
        artist_key.length, (B, C, H, W), now⟩ samples B C H W crypto_blend shuffle_mode
        gen_seed steps cfg sampler_name scheduler <;> simp only [htry, Except.isOk, Except.toBool]
  · intro identity hid htry
    rw [hd] at hid
    injection hid with hid2
    subst hid2
    unfold sample
    rw [if_pos hr, hd]
    simp only [htry]

/-- C4 witness: a parse failure inside the shuffle step is caught and
downgraded for a well-formed key. -/
theorem c4_shuffle_failure_caught_witness :
    encodeUtf8 aliceKey = .ok [97, 108, 105, 99, 101] ∧ mkRat 1 100 < mkRat 1 2 ∧
    (sample aliceKey demoTensor 1 1 2 2 (mkRat 1 2) "block_x" 0 20 8 "euler" "normal"
      0).isOk = true :=
  ⟨by decide, by decide,
    (c4_shuffle_failure_caught aliceKey demoTensor 1 1 2 2 (mkRat 1 2) "block_x" 0 20 8
      "euler" "normal" 0 [97, 108, 105, 99, 101] (by decide) (by decide)).1⟩

/-- C4 counterexample: the claim as stated is false — an exception raised
during identity derivation (UTF-8 encoding of the lone surrogate U+D800)
happens before the `try:` block and propagates to the caller instead of being
downgraded to an "error" signature. -/
theorem c4_derivation_not_caught :
    (sample [0xd800] zeroTensor 1 1 2 2 (mkRat 1 2) "block_8" 0 20 8 "euler" "normal"
      0).isOk = false := by decide

/-- C5: at or below the 0.01 threshold the stage short-circuits — the latent
handed onward is the input object itself, the signature is "unsigned", the
verification payload is empty, and the result does not depend on the key, the
mode, or the clock (derivation, synthesis, shuffle and blend are skipped). -/
theorem c5_threshold_short_circuit (artist_key : List Nat) (samples : Tensor) (B C H W : Nat)
    (crypto_blend : ℚ) (shuffle_mode : String) (gen_seed steps : Nat) (cfg : ℚ)
    (sampler_name scheduler : String) (now : ℚ) (hr : crypto_blend ≤ mkRat 1 100) :
    sample artist_key samples B C H W crypto_blend shuffle_mode gen_seed steps cfg
      sampler_name scheduler now = .ok ⟨samples, "unsigned", none⟩ := by
  unfold sample
  rw [if_neg (not_lt.2 hr)]

/-- C5 witness: blend exactly at the threshold, with a key that would not even
encode — confirming derivation is skipped. -/
theorem c5_threshold_short_circuit_witness :
    mkRat 1 100 ≤ mkRat 1 100 ∧
    sample [0xd800] demoTensor 1 1 2 2 (mkRat 1 100) "block_8" 0 20 8 "euler" "normal" 0 =
      .ok ⟨demoTensor, "unsigned", none⟩ :=
  ⟨by decide,
    c5_threshold_short_circuit [0xd800] demoTensor 1 1 2 2 (mkRat 1 100) "block_8" 0 20 8
      "euler" "normal" 0 (by decide)⟩

/-- C6 (amended): in block mode with block size S and `H ≥ S`, `W ≥ S`
(`0 < H/S`, `0 < W/S`), the one shared permutation drawn from
`RandomState(seed)` is applied identically to every slice, but as a scatter:
the source block `i` moves to destination block `block_perm[i]` (output block
`perm[i]` equals input block `i`, not output block `i` equals input block
`perm[i]`); remainder rows and columns outside the truncated region are left
unchanged. -/
theorem c6_block_shuffle_scatter (latent : Tensor) (seed B C H W S : Nat) (b c : Nat)
    (hb : b < B) (hc : c < C) (hbh : 0 < H / S) (hbw : 0 < W / S)
    (i dy dx : Nat) (hi : i < H / S * (W / S)) (hdy : dy < S) (hdx : dx < S)
    (y x : Nat) (hout : H / S * S ≤ y ∨ W / S * S ≤ x) :
    (shuffleBlocksPos latent seed B C H W S b c
      ((npPermutation seed (H / S * (W / S))).getD i 0 / (W / S) * S + dy)
      ((npPermutation seed (H / S * (W / S))).getD i 0 % (W / S) * S + dx) =
      latent b c (i / (W / S) * S + dy) (i % (W / S) * S + dx)) ∧
    shuffleBlocksPos latent seed B C H W S b c y x = latent b c y x :=
  ⟨shuffleBlocksPos_char latent seed B C H W S b c hb hc hbh hbw i dy dx hi hdy hdx,
   shuffleBlocksPos_remainder latent seed B C H W S b c y x hbh hbw hout⟩

/-- C6 witness: the scatter characterization at the "alice" seed on a
(1,1,16,24) tensor with 8-by-8 blocks, probing block index 2 and a remainder
row. -/
theorem c6_block_shuffle_scatter_witness :
    (0 : Nat) < 16 / 8 ∧ (0 : Nat) < 24 / 8 ∧
    (shuffleBlocksPos demoTensor 2131624111 1 1 16 24 8 0 0
      ((npPermutation 2131624111 (16 / 8 * (24 / 8))).getD 2 0 / (24 / 8) * 8 + 0)
      ((npPermutation 2131624111 (16 / 8 * (24 / 8))).getD 2 0 % (24 / 8) * 8 + 0) =
      demoTensor 0 0 (2 / (24 / 8) * 8 + 0) (2 % (24 / 8) * 8 + 0)) ∧
    shuffleBlocksPos demoTensor 2131624111 1 1 16 24 8 0 0 16 0 =
      demoTensor 0 0 16 0 :=
  ⟨by decide, by decide,
    (c6_block_shuffle_scatter demoTensor 2131624111 1 1 16 24 8 0 0 (by decide) (by decide)
      (by decide) (by decide) 2 0 0 (by decide) (by decide) (by decide) 16 0
      (by decide)).1,
    (c6_block_shuffle_scatter demoTensor 2131624111 1 1 16 24 8 0 0 (by decide) (by decide)
      (by decide) (by decide) 2 0 0 (by decide) (by decide) (by decide) 16 0
      (by decide)).2⟩

/-- C6 counterexample: the claim's gather reading "output block i equals input
block permutation[i]" fails.  For key "alice" (seed 2131624111) on a
(1,1,16,24) tensor with S = 8 the block permutation of the 6 block indices is
[0, 1, 3, 5, 4, 2]; output block 2 (top-left corner (0,16)) holds input block
5 (value 208), not input block permutation[2] = 3 (top-left (8,0), value
192). -/
theorem c6_gather_reading_false :
    shuffleBlocksPos demoTensor 2131624111 1 1 16 24 8 0 0 0 16 ≠ demoTensor 0 0 8 0 := by
  decide

/-- C7 (amended): in pixel mode, provided every channel seed `seed + b*C + c`
over the slices is below 2^32, `_shuffle_pixels` returns the gather: each
(batch, channel) slice is flattened row-major, a permutation is drawn from a
generator freshly seeded with `seed + b*C + c`, output index i receives the
input value at index permutation[i], and the slice is reshaped back; the
slice's output depends only on that slice's input values and its own
permutation.  When some channel seed reaches 2^32 the `RandomState`
constructor raises `ValueError` instead (see the counterexample). -/
theorem c7_pixel_shuffle_gather (latent : Tensor) (seed B C H W : Nat) (b c y x : Nat)
    (hb : b < B) (hc : c < C) (hy : y < H) (hx : x < W)
    (hseed : ∀ b2 < B, ∀ c2 < C, seed + b2 * C + c2 < 2 ^ 32) :
    (shuffle_pixels latent seed B C H W = .ok (pixelShuffleGather latent seed B C H W)) ∧
    (pixelShuffleGather latent seed B C H W b c y x =
      latent b c ((npPermutation (seed + b * C + c) (H * W)).getD (y * W + x) 0 / W)
        ((npPermutation (seed + b * C + c) (H * W)).getD (y * W + x) 0 % W)) ∧
    (∀ latent2 : Tensor, (∀ y2 x2, latent2 b c y2 x2 = latent b c y2 x2) →
      pixelShuffleGather latent2 seed B C H W b c y x =
        pixelShuffleGather latent seed B C H W b c y x) := by
  refine ⟨?_, ?_, ?_⟩
  · unfold shuffle_pixels
    rw [if_pos hseed]
  · unfold pixelShuffleGather reshapeTo2d gatherFlat flattenSlice
    rw [if_pos ⟨hb, hc, hy, hx⟩]
  · intro latent2 hsl
    unfold pixelShuffleGather reshapeTo2d gatherFlat flattenSlice
    rw [if_pos ⟨hb, hc, hy, hx⟩, if_pos ⟨hb, hc, hy, hx⟩, hsl]

/-- C7 witness: the gather characterization on a concrete (1,1,1,2) slice with
seed 7, whose single channel seed is in range. -/
theorem c7_pixel_shuffle_gather_witness :
    (∀ b2 < 1, ∀ c2 < 1, 7 + b2 * 1 + c2 < 2 ^ 32) ∧
    shuffle_pixels demoTensor 7 1 1 1 2 = .ok (pixelShuffleGather demoTensor 7 1 1 1 2) ∧
    pixelShuffleGather demoTensor 7 1 1 1 2 0 0 0 1 =
      demoTensor 0 0 ((npPermutation (7 + 0 * 1 + 0) (1 * 2)).getD (0 * 2 + 1) 0 / 2)
        ((npPermutation (7 + 0 * 1 + 0) (1 * 2)).getD (0 * 2 + 1) 0 % 2) :=
  ⟨by decide,
    (c7_pixel_shuffle_gather demoTensor 7 1 1 1 2 0 0 0 1 (by decide) (by decide) (by decide)
      (by decide) (by decide)).1,
    (c7_pixel_shuffle_gather demoTensor 7 1 1 1 2 0 0 0 1 (by decide) (by decide) (by decide)
      (by decide) (by decide)).2.1⟩

/-- C7 counterexample: the claim as stated is false — with identity seed
2^32 - 1 (reachable, since the derived seed ranges over all of [0, 2^32)) and
C = 2 channels, slice (0,1) has channel seed exactly 2^32, for which
`np.random.RandomState` raises `ValueError("Seed must be between 0 and
2**32 - 1")`; `_shuffle_pixels` therefore raises instead of gathering that
slice. -/
theorem c7_channel_seed_overflow :
    shuffle_pixels zeroTensor (2 ^ 32 - 1) 1 2 1 1 = .error () := by
  unfold shuffle_pixels
  rw [if_neg (by decide)]

/-- C8: the generated permutation is a true bijection of `{0,...,n-1}` for
every seed and n, and in block mode with S dividing both H and W evenly the
multiset of values of every (batch, channel) slice is exactly preserved
between input and shuffled output — only positions change. -/
theorem c8_permutation_bijection_multiset :
    (∀ seed n : Nat, (npPermutation seed n).Perm (List.range n)) ∧
    (∀ (latent : Tensor) (seed B C H W S : Nat), 0 < S → S ∣ H → S ∣ W → 0 < H → 0 < W →
      ∀ b c : Nat, b < B → c < C →
        sliceMultiset (shuffleBlocksPos latent seed B C H W S) b c H W =
          sliceMultiset latent b c H W) := by
  refine ⟨npPermutation_perm, ?_⟩
  intro latent seed B C H W S hS hH hW hH0 hW0 b c hb hc
  obtain ⟨bh, hbh⟩ := hH
  obtain ⟨bw, hbw⟩ := hW
  subst hbh hbw
  have hbh0 : 0 < bh := by
    rcases Nat.eq_zero_or_pos bh with h | h
    · subst h; simp at hH0
    · exact h
  have hbw0 : 0 < bw := by
    rcases Nat.eq_zero_or_pos bw with h | h
    · subst h; simp at hW0
    · exact h
  rw [Nat.mul_comm S bh, Nat.mul_comm S bw]
  exact shuffleBlocksPos_slice_multiset latent seed B C bh bw S hS hbh0 hbw0 b c hb hc

/-- C8 witness: slice multiset preservation at S = 2 on a (1,1,2,2) tensor. -/
theorem c8_permutation_bijection_multiset_witness :
    sliceMultiset (shuffleBlocksPos demoTensor 2131624111 1 1 2 2 2) 0 0 2 2 =
      sliceMultiset demoTensor 0 0 2 2 :=
  c8_permutation_bijection_multiset.2 demoTensor 2131624111 1 1 2 2 2 (by decide)
    (by decide) (by decide) (by decide) (by decide) 0 0 (by decide) (by decide)

/-- C9 (amended): identical key and shape give identity records that agree on
key_hash, seed, key length and shape; the derived_at timestamp equals each
invocation's own wall-clock reading and so differs whenever the clocks do. -/
theorem c9_identity_fields_deterministic (key : List Nat) (shape : Nat × Nat × Nat × Nat)
    (t1 t2 : ℚ) (id1 id2 : CryptoIdentity)
    (h1 : derive_crypto_identity key shape t1 = .ok id1)
    (h2 : derive_crypto_identity key shape t2 = .ok id2) :
    id1.key_hash = id2.key_hash ∧ id1.seed = id2.seed ∧
    id1.artist_key_length = id2.artist_key_length ∧ id1.shape = id2.shape ∧
    id1.timestamp = t1 ∧ id2.timestamp = t2 := by
  unfold derive_crypto_identity at h1 h2
  cases henc : encodeUtf8 key with
  | error e =>
    rw [henc] at h1
    exact absurd h1 (by simp)
  | ok bytes =>
    rw [henc] at h1 h2
    injection h1 with e1
    injection h2 with e2
    subst e1 e2
    exact ⟨rfl, rfl, rfl, rfl, rfl, rfl⟩

/-- C9 witness: the field agreement for key "alice" at clock readings 0 and 1. -/
theorem c9_identity_fields_deterministic_witness :
    derive_crypto_identity aliceKey (1, 4, 64, 64) 0 =
      .ok ⟨"2bd806c97f0e00af1a1fc3328fa763a9269723c8db8fac4f93af71db186d6e90", 2131624111, 5,
        (1, 4, 64, 64), 0⟩ ∧
    derive_crypto_identity aliceKey (1, 4, 64, 64) 1 =
      .ok ⟨"2bd806c97f0e00af1a1fc3328fa763a9269723c8db8fac4f93af71db186d6e90", 2131624111, 5,
        (1, 4, 64, 64), 1⟩ ∧
    (⟨"2bd806c97f0e00af1a1fc3328fa763a9269723c8db8fac4f93af71db186d6e90", 2131624111, 5,
        (1, 4, 64, 64), 0⟩ : CryptoIdentity).key_hash =
      (⟨"2bd806c97f0e00af1a1fc3328fa763a9269723c8db8fac4f93af71db186d6e90", 2131624111, 5,
        (1, 4, 64, 64), 1⟩ : CryptoIdentity).key_hash :=
  ⟨by decide, by decide,
    (c9_identity_fields_deterministic aliceKey (1, 4, 64, 64) 0 1 _ _ (by decide)
      (by decide)).1⟩

/-- C9 counterexample: the claim as stated — every field equal, including
derived_at — is false: two invocations for key "alice" at clock readings 0
and 1 produce different Identity records (the timestamps differ). -/
theorem c9_identity_records_differ :
    derive_crypto_identity aliceKey (1, 4, 64, 64) 0 ≠
      derive_crypto_identity aliceKey (1, 4, 64, 64) 1 := by decide

/-- C10 (amended): for an ASCII mode other than "pixel" on which
`int(shuffle_mode.split("_")[1])` fails — no second underscore field, or a
second field that is not a decimal integer — the parse exception is caught:
the original latent passes through and the signature is "error".  (Modes
whose second field does parse, such as "a_2", are instead shuffled in block
mode; see the counterexample.) -/
theorem c10_unparsable_mode_error (artist_key : List Nat) (samples : Tensor) (B C H W : Nat)
    (crypto_blend : ℚ) (shuffle_mode : String) (gen_seed steps : Nat) (cfg : ℚ)
    (sampler_name scheduler : String) (now : ℚ) (bytes : List Nat)
    (henc : encodeUtf8 artist_key = .ok bytes) (hr : mkRat 1 100 < crypto_blend)
    (_hascii : ∀ ch ∈ shuffle_mode.data, ch.toNat < 128)
    (hpix : shuffle_mode ≠ "pixel")
    (hparse : (pySplitIdx1 shuffle_mode).bind pyParseInt = none) :
    sample artist_key samples B C H W crypto_blend shuffle_mode gen_seed steps cfg
      sampler_name scheduler now = .ok ⟨samples, "error", none⟩ := by
  have hd : derive_crypto_identity artist_key (B, C, H, W) now =
      .ok ⟨hexStr (sha256 bytes), beBytesToNat ((sha256 bytes).take 8) % 2 ^ 32,
        artist_key.length, (B, C, H, W), now⟩ := by
    unfold derive_crypto_identity
    rw [henc]
  have hsl : ∀ (lat : Tensor) (identity : CryptoIdentity),
      shuffle_latent lat identity shuffle_mode B C H W = .error () := by
    intro lat identity
    unfold shuffle_latent
    rw [if_neg hpix]
    cases hsp : pySplitIdx1 shuffle_mode with
    | none => rfl
    | some fld =>
      have hpi : pyParseInt fld = none := by
        rw [hsp] at hparse
        simpa using hparse
      simp only [hpi]
  have htry : signing_try ⟨hexStr (sha256 bytes), beBytesToNat ((sha256 bytes).take 8) % 2 ^ 32,
      artist_key.length, (B, C, H, W), now⟩ samples B C H W crypto_blend shuffle_mode
      gen_seed steps cfg sampler_name scheduler = .error () := by
    simp only [signing_try, hsl]
  unfold sample
  rw [if_pos hr, hd]
  simp only [htry]

/-- C10 witness: mode "block_x" (second field not an integer) is caught. -/
theorem c10_unparsable_mode_error_witness :
    (pySplitIdx1 "block_x").bind pyParseInt = none ∧
    sample aliceKey demoTensor 1 1 2 2 (mkRat 1 2) "block_x" 0 20 8 "euler" "normal" 0 =
      .ok ⟨demoTensor, "error", none⟩ :=
  ⟨by decide,
    c10_unparsable_mode_error aliceKey demoTensor 1 1 2 2 (mkRat 1 2) "block_x" 0 20 8
      "euler" "normal" 0 [97, 108, 105, 99, 101] (by decide) (by decide) (by decide)
      (by decide) (by decide)⟩

/-- C10 counterexample: the claim as stated is false — the mode "a_2" is
neither "pixel" nor of the form "block_<decimal integer>", yet
`"a_2".split("_")[1]` is "2", `int("2")` succeeds, the latent is block-shuffled
with block size 2 and the signature is the normal "CN-..." one, not "error". -/
theorem c10_arbitrary_mode_not_error :
    (sample aliceKey demoTensor 1 1 2 2 (mkRat 1 2) "a_2" 0 20 8 "euler" "normal"
      0).toOption.map (fun r => r.signature) = some "CN-2bd806c97f0e00af" := by decide

end CryptoNoise
